import Mathlib

/-!
Verification of the masterblog backend (`src/backend/backend_app.py`), a
Flask app exposing CRUD + search + sort over an in-memory list of posts.

The handlers are shallowly embedded as pure Lean functions over an explicit
`List Post` state.  Query parameters and JSON payload fields are `Option
String` (`none` = absent); Python truthiness of a string parameter is
`truthy` below (`None` and `""` are falsy).  A handler returns a `Resp`
(status code plus body or error message) and, for mutating handlers, the
new collection.  `add_post` returns `Option _` because the source indexes
`POSTS[-1]`, which raises on an empty collection (`none` models the raised
exception; the collection is unchanged in that case since the append never
runs).
-/

namespace Masterblog

/-- A blog post record: `{"id": ..., "title": ..., "content": ...}`. -/
structure Post where
  id : Int
  title : String
  content : String
deriving DecidableEq, Repr

/-- A JSON payload as far as the handlers inspect it: the optional
`title` and `content` fields.  `none` = key absent. -/
structure PostData where
  title : Option String
  content : Option String
deriving DecidableEq, Repr

/-- An HTTP response: status code plus either a JSON body or an error
message (the `{"error": ...}` / `{"message": ...}` payloads). -/
inductive Resp (α : Type) where
  | ok (status : Nat) (body : α)
  | err (status : Nat) (msg : String)
deriving DecidableEq, Repr

/-- The seed collection `POSTS` from the top of `backend_app.py`. -/
def POSTS : List Post :=
  [⟨1, "First post", "This is the first post."⟩,
   ⟨2, "Second post", "This is the second post."⟩]

/-- Python truthiness of an optional string: `None` and `""` are falsy. -/
def truthy : Option String → Bool
  | none => false
  | some s => s != ""

/-- Lookup `post[sort_field]` for `sort_field ∈ {"title", "content"}` (the only
values reaching the subscript, thanks to validation in `get_posts`). -/
def postField (f : String) (p : Post) : String :=
  if f = "title" then p.title else p.content

/-- The comparator `sorted_posts.sort(key=..., reverse=...)` sorts by:
stable sort on the key, comparisons reversed when `reverse` is set. -/
def sortLe (f : String) (desc : Bool) (a b : Post) : Bool :=
  if desc then decide (postField f b ≤ postField f a)
  else decide (postField f a ≤ postField f b)

/-- Handler `GET /api/posts` (`get_posts`): optional `sort` and `direction`
query parameters, validation, then sort only when both are truthy. -/
def get_posts (posts : List Post) (sf sd : Option String) : Resp (List Post) :=
  if truthy sf && !(sf.getD "" == "title" || sf.getD "" == "content") then
    .err 400 "Invalid sort field. Allowed values: title, content"
  else if truthy sd && !(sd.getD "" == "asc" || sd.getD "" == "desc") then
    .err 400 "Invalid sort direction. Allowed values: asc, desc"
  else if truthy sf && truthy sd then
    .ok 200 (posts.mergeSort (sortLe (sf.getD "") (sd == some "desc")))
  else
    .ok 200 posts

/-- Check `field not in post or not post[field]` for a string-valued field:
the key is absent, or its value is falsy (the empty string). -/
def fieldMissing : Option String → Bool
  | none => true
  | some s => s == ""

/-- The `missing_fields` list collected by `add_post`, in loop order
`['title', 'content']`. -/
def missingFields (d : PostData) : List String :=
  (if fieldMissing d.title then ["title"] else []) ++
  (if fieldMissing d.content then ["content"] else [])

/-- Handler `POST /api/posts` (`add_post`): validate payload, then append a post
with id `POSTS[-1]['id'] + 1`.  `none` models the uncaught `IndexError`
when the collection is empty. -/
def add_post (posts : List Post) (payload : Option PostData) :
    Option (Resp Post × List Post) :=
  match payload with
  | none => some (.err 400 "No data provided", posts)
  | some d =>
    if d.title == none && d.content == none then
      some (.err 400 "No data provided", posts)
    else if !(missingFields d).isEmpty then
      some (.err 400 ("Missing or empty fields: " ++
        String.intercalate ", " (missingFields d)), posts)
    else
      match posts.getLast? with
      | none => none
      | some last =>
        let newPost : Post := ⟨last.id + 1, d.title.getD "", d.content.getD ""⟩
        some (.ok 201 newPost, posts ++ [newPost])

/-- Handler `DELETE /api/posts/<int:post_id>` (`delete_post`): remove the first
post with the given id, else 404. -/
def delete_post (posts : List Post) (pid : Int) : Resp String × List Post :=
  match posts with
  | [] => (.err 404 ("Post with id " ++ toString pid ++ " not found."), [])
  | p :: rest =>
    if p.id == pid then
      (.ok 200 ("Post with id " ++ toString pid ++
        " has been deleted successfully."), rest)
    else
      let r := delete_post rest pid
      (r.1, p :: r.2)

/-- Handler `PUT /api/posts/<int:post_id>` (`update_post`): mutate the first post
with the given id to the resolved title/content, and also append a copy of
the resolved record to the end of the collection; 404 when no id matches. -/
def update_post (posts : List Post) (pid : Int) (d : PostData) :
    Resp Post × List Post :=
  match posts with
  | [] => (.err 404 ("Post with id " ++ toString pid ++ " not found."), [])
  | p :: rest =>
    if p.id == pid then
      let updated : Post := ⟨p.id, d.title.getD p.title, d.content.getD p.content⟩
      (.ok 200 updated, updated :: (rest ++ [updated]))
    else
      let r := update_post rest pid d
      (r.1, p :: r.2)

/-- Test `search_title.lower() in post['title'].lower()`: case-insensitive
substring test, on the code-point sequences of the lowered strings. -/
def substrCI (q s : String) : Bool :=
  decide (q.toLower.toList <:+: s.toLower.toList)

/-- One disjunct of the search condition:
`search_x and search_x.lower() in post[x].lower()`. -/
def matchFilter (f : Option String) (s : String) : Bool :=
  match f with
  | none => false
  | some q => q != "" && substrCI q s

/-- The matching loop of `search_posts`. -/
def search_posts (posts : List Post) (t c : Option String) : List Post :=
  match posts with
  | [] => []
  | p :: rest =>
    if matchFilter t p.title || matchFilter c p.content then
      p :: search_posts rest t c
    else
      search_posts rest t c

/-- Handler `GET /api/posts/search` (`search_posts` route): always 200 with the
matching posts. -/
def search_route (posts : List Post) (t c : Option String) : Resp (List Post) :=
  .ok 200 (search_posts posts t c)

/-- The operations a client can drive the store through; `list` and
`search` are read-only. -/
inductive Op where
  | create (payload : Option PostData)
  | del (pid : Int)
  | update (pid : Int) (payload : PostData)
  | list (sf sd : Option String)
  | search (t c : Option String)

/-- The collection after one request.  A raised exception in `add_post`
(`none`) leaves the collection unchanged: the append never executed. -/
def applyOp (posts : List Post) : Op → List Post
  | .create pl =>
    match add_post posts pl with
    | some (_, ps) => ps
    | none => posts
  | .del pid => (delete_post posts pid).2
  | .update pid pl => (update_post posts pid pl).2
  | .list _ _ => posts
  | .search _ _ => posts

/-- The collection reached from the seed state by a sequence of requests. -/
def runOps (ops : List Op) : List Post :=
  ops.foldl applyOp POSTS

/-! ## C3: successful create -/

/-- C3: for every non-empty collection (last element `last`) and every
payload with both `title` and `content` present and non-empty, `add_post`
assigns id `last.id + 1`, appends the new post to the end of the
collection, and returns it with status 201. -/
theorem add_post_creates (posts : List Post) (last : Post) (t c : String)
    (hlast : posts.getLast? = some last) (ht : t ≠ "") (hc : c ≠ "") :
    add_post posts (some ⟨some t, some c⟩) =
      some (.ok 201 ⟨last.id + 1, t, c⟩, posts ++ [⟨last.id + 1, t, c⟩]) := by
  simp [add_post, missingFields, fieldMissing, ht, hc, hlast]

/-- Witness for C3: the spec's scenario, `POST {"title": "Third",
"content": "Body"}` on the seed state yields id 3 at the end. -/
theorem add_post_creates_witness :
    POSTS.getLast? = some ⟨2, "Second post", "This is the second post."⟩ ∧
    add_post POSTS (some ⟨some "Third", some "Body"⟩) =
      some (.ok 201 ⟨3, "Third", "Body"⟩, POSTS ++ [⟨3, "Third", "Body"⟩]) := by
  refine ⟨rfl, ?_⟩
  have h := add_post_creates POSTS ⟨2, "Second post", "This is the second post."⟩
    "Third" "Body" rfl (by decide) (by decide)
  simpa using h

/-! ## C7: create validation -/

/-- C7: `add_post` fails with 400 "No data provided" when the payload is
absent or empty; otherwise, when `title` and/or `content` is missing or
empty, it fails with 400 and the comma-joined list of offending field
names; in every failure case the collection is unchanged. -/
theorem add_post_validation (posts : List Post) (payload : Option PostData) :
    ((payload = none ∨ payload = some ⟨none, none⟩) →
      add_post posts payload = some (.err 400 "No data provided", posts)) ∧
    (∀ d, payload = some d →
      fieldMissing d.title = true → fieldMissing d.content = false →
      add_post posts payload =
        some (.err 400 "Missing or empty fields: title", posts)) ∧
    (∀ d, payload = some d →
      fieldMissing d.title = false → fieldMissing d.content = true →
      add_post posts payload =
        some (.err 400 "Missing or empty fields: content", posts)) ∧
    (∀ d, payload = some d → ¬(d.title = none ∧ d.content = none) →
      fieldMissing d.title = true → fieldMissing d.content = true →
      add_post posts payload =
        some (.err 400 "Missing or empty fields: title, content", posts)) := by
  refine ⟨?_, ?_, ?_, ?_⟩
  · rintro (rfl | rfl)
    · rfl
    · rfl
  · rintro ⟨dt, dc⟩ rfl h1 h2
    have hdc : ∃ s, dc = some s ∧ (s == "") = false := by
      cases dc with
      | none => exact absurd h2 (by simp [fieldMissing])
      | some s => exact ⟨s, rfl, by simpa [fieldMissing] using h2⟩
    obtain ⟨s, rfl, hs⟩ := hdc
    simp [add_post, missingFields, h1, h2, hs, String.intercalate]
    rfl
  · rintro ⟨dt, dc⟩ rfl h1 h2
    have hdt : ∃ s, dt = some s ∧ (s == "") = false := by
      cases dt with
      | none => exact absurd h1 (by simp [fieldMissing])
      | some s => exact ⟨s, rfl, by simpa [fieldMissing] using h1⟩
    obtain ⟨s, rfl, hs⟩ := hdt
    simp [add_post, missingFields, h1, h2, hs, String.intercalate]
    rfl
  · rintro ⟨dt, dc⟩ rfl hne h1 h2
    have hcase : (dt = none ∧ dc = some "") ∨ (dt = some "" ∧ dc = none) ∨
        (dt = some "" ∧ dc = some "") := by
      cases dt with
      | none =>
        cases dc with
        | none => exact absurd ⟨rfl, rfl⟩ hne
        | some s =>
          have : s = "" := by simpa [fieldMissing] using h2
          subst this; exact Or.inl ⟨rfl, rfl⟩
      | some s =>
        have hs : s = "" := by simpa [fieldMissing] using h1
        subst hs
        cases dc with
        | none => exact Or.inr (Or.inl ⟨rfl, rfl⟩)
        | some s' =>
          have : s' = "" := by simpa [fieldMissing] using h2
          subst this; exact Or.inr (Or.inr ⟨rfl, rfl⟩)
    rcases hcase with ⟨rfl, rfl⟩ | ⟨rfl, rfl⟩ | ⟨rfl, rfl⟩ <;> rfl

/-- Witness for C7: the four failure shapes on the seed state. -/
theorem add_post_validation_witness :
    add_post POSTS none = some (.err 400 "No data provided", POSTS) ∧
    add_post POSTS (some ⟨none, some "x"⟩) =
      some (.err 400 "Missing or empty fields: title", POSTS) ∧
    add_post POSTS (some ⟨some "x", none⟩) =
      some (.err 400 "Missing or empty fields: content", POSTS) ∧
    add_post POSTS (some ⟨some "", some ""⟩) =
      some (.err 400 "Missing or empty fields: title, content", POSTS) :=
  ⟨(add_post_validation POSTS none).1 (Or.inl rfl),
   (add_post_validation POSTS _).2.1 ⟨none, some "x"⟩ rfl (by decide) (by decide),
   (add_post_validation POSTS _).2.2.1 ⟨some "x", none⟩ rfl (by decide) (by decide),
   (add_post_validation POSTS _).2.2.2 ⟨some "", some ""⟩ rfl (by decide)
     (by decide) (by decide)⟩

/-! ## C8: list sort-parameter validation -/

/-- C8: a truthy `sort` value outside {title, content} makes `get_posts`
fail with 400 and the sort-field message; a truthy `direction` value
outside {asc, desc} (once the sort field passed its check) makes it fail
with 400 and the sort-direction message. -/
theorem get_posts_validation (posts : List Post) (sf sd : Option String) :
    (∀ s, sf = some s → s ≠ "" → s ≠ "title" → s ≠ "content" →
      get_posts posts sf sd =
        .err 400 "Invalid sort field. Allowed values: title, content") ∧
    (∀ s, sd = some s → s ≠ "" → s ≠ "asc" → s ≠ "desc" →
      (sf = none ∨ sf = some "" ∨ sf = some "title" ∨ sf = some "content") →
      get_posts posts sf sd =
        .err 400 "Invalid sort direction. Allowed values: asc, desc") := by
  constructor
  · rintro s rfl hne h1 h2
    simp [get_posts, truthy, hne, h1, h2]
  · rintro s rfl hne h1 h2 hsf
    rcases hsf with rfl | rfl | rfl | rfl <;>
      simp [get_posts, truthy, hne, h1, h2]

/-- Witness for C8: `sort=bogus` and, separately, `direction=bogus`. -/
theorem get_posts_validation_witness :
    get_posts POSTS (some "bogus") none =
      .err 400 "Invalid sort field. Allowed values: title, content" ∧
    get_posts POSTS none (some "bogus") =
      .err 400 "Invalid sort direction. Allowed values: asc, desc" :=
  ⟨(get_posts_validation POSTS (some "bogus") none).1 "bogus" rfl
     (by decide) (by decide) (by decide),
   (get_posts_validation POSTS none (some "bogus")).2 "bogus" rfl
     (by decide) (by decide) (by decide) (Or.inl rfl)⟩

/-! ## C10: empty-string query parameters behave as absent -/

/-- A `title=""` search filter behaves as an absent one. -/
theorem search_posts_empty_title (posts : List Post) (c : Option String) :
    search_posts posts (some "") c = search_posts posts none c := by
  induction posts with
  | nil => rfl
  | cons p rest ih => simp [search_posts, matchFilter, ih]

/-- A `content=""` search filter behaves as an absent one. -/
theorem search_posts_empty_content (posts : List Post) (t : Option String) :
    search_posts posts t (some "") = search_posts posts t none := by
  induction posts with
  | nil => rfl
  | cons p rest ih => simp [search_posts, matchFilter, ih]

/-- With both filters absent nothing matches. -/
theorem search_posts_none_none (posts : List Post) :
    search_posts posts none none = [] := by
  induction posts with
  | nil => rfl
  | cons p rest ih => simpa [search_posts, matchFilter] using ih

/-- C10: an empty-string query parameter acts exactly like an absent one:
for `get_posts`, `sort=""` (resp. `direction=""`) is interchangeable with
the parameter being absent (so it triggers neither a 400 nor sorting), and
for search, `title=""`/`content=""` contribute no matches, so a search
with both filters empty or absent returns the empty list. -/
theorem empty_param_as_absent (posts : List Post) :
    (∀ sd, get_posts posts (some "") sd = get_posts posts none sd) ∧
    (∀ sf, get_posts posts sf (some "") = get_posts posts sf none) ∧
    (∀ c, search_posts posts (some "") c = search_posts posts none c) ∧
    (∀ t, search_posts posts t (some "") = search_posts posts t none) ∧
    search_posts posts none none = [] ∧
    get_posts posts (some "") (some "") = .ok 200 posts := by
  refine ⟨?_, ?_, search_posts_empty_title posts, search_posts_empty_content posts,
    search_posts_none_none posts, ?_⟩
  · intro sd; simp [get_posts, truthy]
  · intro sf; simp [get_posts, truthy]
  · simp [get_posts, truthy]

/-! ## C5: search semantics -/

/-- Lemma: `matchFilter` holds exactly when the filter was given as a non-empty
string that is a case-insensitive substring of `s`. -/
theorem matchFilter_iff (f : Option String) (s : String) :
    matchFilter f s = true ↔
      ∃ q, f = some q ∧ q ≠ "" ∧
        ∃ pre suf, pre ++ q.toLower.toList ++ suf = s.toLower.toList := by
  cases f with
  | none => simp [matchFilter]
  | some q =>
    simp only [matchFilter, substrCI, Bool.and_eq_true, bne_iff_ne, ne_eq,
      decide_eq_true_eq, Option.some.injEq]
    constructor
    · rintro ⟨hq, pre, suf, h⟩
      exact ⟨q, rfl, hq, pre, suf, h⟩
    · rintro ⟨q', hq', hne, pre, suf, h⟩
      cases hq'
      exact ⟨hne, pre, suf, h⟩

/-- C5: the search route always answers 200 with exactly the posts, in
collection order (a sublist of the collection), whose title contains the
given non-empty title filter case-insensitively, or whose content contains
the given non-empty content filter case-insensitively. -/
theorem search_posts_spec (posts : List Post) (t c : Option String) :
    search_route posts t c = .ok 200 (search_posts posts t c) ∧
    (search_posts posts t c).Sublist posts ∧
    (∀ p, p ∈ search_posts posts t c ↔ p ∈ posts ∧
      ((∃ q, t = some q ∧ q ≠ "" ∧
          ∃ pre suf, pre ++ q.toLower.toList ++ suf = p.title.toLower.toList) ∨
       (∃ q, c = some q ∧ q ≠ "" ∧
          ∃ pre suf, pre ++ q.toLower.toList ++ suf = p.content.toLower.toList))) := by
  refine ⟨rfl, ?_, ?_⟩
  · induction posts with
    | nil => exact List.Sublist.refl _
    | cons p rest ih =>
      by_cases h : (matchFilter t p.title || matchFilter c p.content) = true
      · simpa [search_posts, h] using ih.cons₂ p
      · simpa [search_posts, h] using ih.cons p
  · intro p
    induction posts with
    | nil => simp [search_posts]
    | cons q rest ih =>
      by_cases h : (matchFilter t q.title || matchFilter c q.content) = true
      · simp only [search_posts, h, if_pos, List.mem_cons, ih]
        constructor
        · rintro (rfl | ⟨hmem, hcond⟩)
          · refine ⟨Or.inl rfl, ?_⟩
            rcases Bool.or_eq_true_iff.mp h with h' | h'
            · exact Or.inl ((matchFilter_iff t p.title).mp h')
            · exact Or.inr ((matchFilter_iff c p.content).mp h')
          · exact ⟨Or.inr hmem, hcond⟩
        · rintro ⟨rfl | hmem, hcond⟩
          · exact Or.inl rfl
          · exact Or.inr ⟨hmem, hcond⟩
      · simp only [search_posts, h, if_neg, Bool.not_eq_true, ih, List.mem_cons]
        constructor
        · rintro ⟨hmem, hcond⟩
          exact ⟨Or.inr hmem, hcond⟩
        · rintro ⟨rfl | hmem, hcond⟩
          · exfalso
            rcases hcond with hc' | hc'
            · have := (matchFilter_iff t p.title).mpr hc'
              simp [this] at h
            · have := (matchFilter_iff c p.content).mpr hc'
              simp [this] at h
          · exact ⟨hmem, hcond⟩

/-! ## C6: delete -/

/-- When no post has the requested id, `delete_post` answers 404 and
leaves the collection unchanged. -/
theorem delete_post_not_found (posts : List Post) (pid : Int)
    (h : ∀ p ∈ posts, p.id ≠ pid) :
    delete_post posts pid =
      (.err 404 ("Post with id " ++ toString pid ++ " not found."), posts) := by
  induction posts with
  | nil => rfl
  | cons p rest ih =>
    have hp : (p.id == pid) = false := by
      simpa using h p (List.mem_cons_self p rest)
    have hrest := ih fun q hq => h q (List.mem_cons_of_mem p hq)
    simp [delete_post, hp, hrest]

/-- Deleting at the first match removes exactly that element. -/
theorem delete_post_found (pre : List Post) (p : Post) (suf : List Post)
    (pid : Int) (hpre : ∀ q ∈ pre, q.id ≠ pid) (hp : p.id = pid) :
    delete_post (pre ++ p :: suf) pid =
      (.ok 200 ("Post with id " ++ toString pid ++
        " has been deleted successfully."), pre ++ suf) := by
  induction pre with
  | nil => simp [delete_post, hp]
  | cons q pre' ih =>
    have hq : (q.id == pid) = false := by
      simpa using hpre q (List.mem_cons_self q pre')
    have hrest := ih fun r hr => hpre r (List.mem_cons_of_mem q hr)
    simp [delete_post, hq, hrest]

/-- C6: `delete_post` succeeds with 200 and the success message exactly
when some post carries the requested id, removing exactly the first
matching element and keeping every other element; otherwise it answers
404 with the not-found message and leaves the collection unchanged. -/
theorem delete_post_spec (posts : List Post) (pid : Int) :
    ((∀ p ∈ posts, p.id ≠ pid) →
      delete_post posts pid =
        (.err 404 ("Post with id " ++ toString pid ++ " not found."), posts)) ∧
    (∀ pre p suf, posts = pre ++ p :: suf →
      (∀ q ∈ pre, q.id ≠ pid) → p.id = pid →
      delete_post posts pid =
        (.ok 200 ("Post with id " ++ toString pid ++
          " has been deleted successfully."), pre ++ suf) ∧
      (delete_post posts pid).2.length + 1 = posts.length) := by
  constructor
  · exact delete_post_not_found posts pid
  · rintro pre p suf rfl hpre hp
    refine ⟨delete_post_found pre p suf pid hpre hp, ?_⟩
    rw [delete_post_found pre p suf pid hpre hp]
    simp
    omega

/-- Witness for C6: deleting id 1 from the seed state removes the first
post; deleting id 5 is a 404 that changes nothing. -/
theorem delete_post_spec_witness :
    delete_post POSTS 5 = (.err 404 "Post with id 5 not found.", POSTS) ∧
    delete_post POSTS 1 =
      (.ok 200 "Post with id 1 has been deleted successfully.",
       [⟨2, "Second post", "This is the second post."⟩]) := by
  constructor
  · exact (delete_post_spec POSTS 5).1 (by decide)
  · have h := ((delete_post_spec POSTS 1).2 []
      ⟨1, "First post", "This is the first post."⟩
      [⟨2, "Second post", "This is the second post."⟩] rfl (by decide) rfl).1
    simpa using h

/-! ## C2: update -/

/-- When no post has the requested id, `update_post` answers 404 and
leaves the collection unchanged. -/
theorem update_post_not_found (posts : List Post) (pid : Int) (d : PostData)
    (h : ∀ p ∈ posts, p.id ≠ pid) :
    update_post posts pid d =
      (.err 404 ("Post with id " ++ toString pid ++ " not found."), posts) := by
  induction posts with
  | nil => rfl
  | cons p rest ih =>
    have hp : (p.id == pid) = false := by
      simpa using h p (List.mem_cons_self p rest)
    have hrest := ih fun q hq => h q (List.mem_cons_of_mem p hq)
    simp [update_post, hp, hrest]

/-- Updating at the first match mutates that element in place and appends
a copy of the resolved record at the end. -/
theorem update_post_found (pre : List Post) (p : Post) (suf : List Post)
    (pid : Int) (d : PostData) (hpre : ∀ q ∈ pre, q.id ≠ pid) (hp : p.id = pid) :
    update_post (pre ++ p :: suf) pid d =
      (.ok 200 ⟨pid, d.title.getD p.title, d.content.getD p.content⟩,
       pre ++ ⟨pid, d.title.getD p.title, d.content.getD p.content⟩ ::
         (suf ++ [⟨pid, d.title.getD p.title, d.content.getD p.content⟩])) := by
  induction pre with
  | nil => simp [update_post, hp]
  | cons q pre' ih =>
    have hq : (q.id == pid) = false := by
      simpa using hpre q (List.mem_cons_self q pre')
    have hrest := ih fun r hr => hpre r (List.mem_cons_of_mem q hr)
    simp [update_post, hq, hrest]

/-- C2: on a collection containing the requested id, `update_post`
resolves title/content from the payload with the first matching post's
values as defaults, rewrites the first matching post to the resolved
record, appends a copy of that record at the end (growing the collection
by exactly one), and returns the record with 200; with no match it
answers 404 with the not-found message and changes nothing. -/
theorem update_post_spec (posts : List Post) (pid : Int) (d : PostData) :
    ((∀ p ∈ posts, p.id ≠ pid) →
      update_post posts pid d =
        (.err 404 ("Post with id " ++ toString pid ++ " not found."), posts)) ∧
    (∀ pre p suf, posts = pre ++ p :: suf →
      (∀ q ∈ pre, q.id ≠ pid) → p.id = pid →
      update_post posts pid d =
        (.ok 200 ⟨pid, d.title.getD p.title, d.content.getD p.content⟩,
         pre ++ ⟨pid, d.title.getD p.title, d.content.getD p.content⟩ ::
           (suf ++ [⟨pid, d.title.getD p.title, d.content.getD p.content⟩])) ∧
      (update_post posts pid d).2.length = posts.length + 1) := by
  constructor
  · exact update_post_not_found posts pid d
  · rintro pre p suf rfl hpre hp
    refine ⟨update_post_found pre p suf pid d hpre hp, ?_⟩
    rw [update_post_found pre p suf pid d hpre hp]
    simp
    omega

/-- Witness for C2: the spec's scenario — updating id 1 with only a new
content keeps the old title, rewrites the first post, and appends a copy
of the resolved record; updating a missing id 5 is a 404 no-op. -/
theorem update_post_spec_witness :
    update_post POSTS 5 ⟨none, none⟩ =
      (.err 404 "Post with id 5 not found.", POSTS) ∧
    update_post POSTS 1 ⟨none, some "X"⟩ =
      (.ok 200 ⟨1, "First post", "X"⟩,
       [⟨1, "First post", "X"⟩,
        ⟨2, "Second post", "This is the second post."⟩,
        ⟨1, "First post", "X"⟩]) := by
  constructor
  · exact (update_post_spec POSTS 5 ⟨none, none⟩).1 (by decide)
  · have h := ((update_post_spec POSTS 1 ⟨none, some "X"⟩).2 []
      ⟨1, "First post", "This is the first post."⟩
      [⟨2, "Second post", "This is the second post."⟩] rfl (by decide) rfl).1
    simpa using h

/-! ## C4: list with sorting -/

/-- The sort comparator is transitive. -/
theorem sortLe_trans (f : String) (desc : Bool) :
    ∀ a b c : Post, sortLe f desc a b → sortLe f desc b c → sortLe f desc a c := by
  intro a b c hab hbc
  cases desc
  · simp [sortLe] at hab hbc ⊢
    exact le_trans hab hbc
  · simp [sortLe] at hab hbc ⊢
    exact le_trans hbc hab

/-- The sort comparator is total. -/
theorem sortLe_total (f : String) (desc : Bool) :
    ∀ a b : Post, sortLe f desc a b || sortLe f desc b a := by
  intro a b
  cases desc
  · simp [sortLe]
    exact le_total _ _
  · simp [sortLe]
    exact le_total _ _

/-- C4: with both `sort` and `direction` supplied and valid, `get_posts`
answers 200 with a permutation of the collection that is non-decreasing
(asc) resp. non-increasing (desc) under lexicographic comparison of the
chosen field's text; with at most one of the two supplied (the other
being valid), it answers 200 with the collection in original order. -/
theorem get_posts_sort_spec (posts : List Post) (sf sd : Option String) :
    (∀ s dir, sf = some s → sd = some dir →
      (s = "title" ∨ s = "content") → (dir = "asc" ∨ dir = "desc") →
      ∃ l, get_posts posts sf sd = .ok 200 l ∧ l.Perm posts ∧
        (dir = "asc" → l.Pairwise (fun a b => postField s a ≤ postField s b)) ∧
        (dir = "desc" → l.Pairwise (fun a b => postField s b ≤ postField s a))) ∧
    ((sf = none ∨ sf = some "title" ∨ sf = some "content") →
     (sd = none ∨ sd = some "asc" ∨ sd = some "desc") →
     (sf = none ∨ sd = none) →
      get_posts posts sf sd = .ok 200 posts) := by
  constructor
  · rintro s dir rfl rfl hs hdir
    have hsorted : ∀ b : Bool,
        (posts.mergeSort (sortLe s b)).Pairwise fun a c => sortLe s b a c := by
      intro b
      exact List.sorted_mergeSort (sortLe_trans s b) (sortLe_total s b) posts
    have hperm : ∀ b : Bool, (posts.mergeSort (sortLe s b)).Perm posts := by
      intro b
      exact List.mergeSort_perm posts (sortLe s b)
    rcases hdir with rfl | rfl
    · refine ⟨posts.mergeSort (sortLe s false), ?_, hperm false, ?_, ?_⟩
      · rcases hs with rfl | rfl <;> rfl
      · intro _
        refine (hsorted false).imp ?_
        intro a b h
        simpa [sortLe] using h
      · intro h
        exact absurd h (by decide)
    · refine ⟨posts.mergeSort (sortLe s true), ?_, hperm true, ?_, ?_⟩
      · rcases hs with rfl | rfl <;> rfl
      · intro h
        exact absurd h (by decide)
      · intro _
        refine (hsorted true).imp ?_
        intro a b h
        simpa [sortLe] using h
  · rintro h1 h2 h3
    rcases h1 with rfl | rfl | rfl <;> rcases h2 with rfl | rfl | rfl <;>
      first
        | rfl
        | (rcases h3 with h3 | h3 <;> simp at h3)

/-- Witness for C4: the spec scenario `sort=title&direction=desc` on the
seed posts gives them in reverse order, sorted non-increasingly by title,
and `direction=asc` alone leaves the order untouched. -/
theorem get_posts_sort_spec_witness :
    get_posts POSTS none (some "asc") = .ok 200 POSTS ∧
    get_posts POSTS (some "title") (some "desc") =
      .ok 200 [⟨2, "Second post", "This is the second post."⟩,
               ⟨1, "First post", "This is the first post."⟩] ∧
    ([⟨2, "Second post", "This is the second post."⟩,
      ⟨1, "First post", "This is the first post."⟩] : List Post).Perm POSTS ∧
    ([⟨2, "Second post", "This is the second post."⟩,
      ⟨1, "First post", "This is the first post."⟩] : List Post).Pairwise
        (fun a b => postField "title" b ≤ postField "title" a) := by
  have hpair : ∀ (a b : Post) (le : Post → Post → Bool),
      [a, b].mergeSort le = if le a b then [a, b] else [b, a] := by
    intro a b le
    rw [List.mergeSort]
    simp [List.merge]
  have h1 : get_posts POSTS (some "title") (some "desc") =
      .ok 200 (POSTS.mergeSort (sortLe "title" true)) := rfl
  have hle : ¬ ("Second post" ≤ "First post") := by
    rw [String.le_iff_toList_le]
    decide
  have hcond : sortLe "title" true
      ⟨1, "First post", "This is the first post."⟩
      ⟨2, "Second post", "This is the second post."⟩ = false := by
    show decide ("Second post" ≤ "First post") = false
    exact decide_eq_false hle
  have hconc : get_posts POSTS (some "title") (some "desc") =
      .ok 200 [⟨2, "Second post", "This is the second post."⟩,
               ⟨1, "First post", "This is the first post."⟩] := by
    rw [h1, show POSTS = [⟨1, "First post", "This is the first post."⟩,
      ⟨2, "Second post", "This is the second post."⟩] from rfl, hpair, hcond]
    rfl
  obtain ⟨l, hl', hperm, _, hdesc⟩ :=
    (get_posts_sort_spec POSTS (some "title") (some "desc")).1 "title" "desc"
      rfl rfl (Or.inl rfl) (Or.inr rfl)
  have hl2 : l = [⟨2, "Second post", "This is the second post."⟩,
      ⟨1, "First post", "This is the first post."⟩] := by
    rw [hl'] at hconc
    injection hconc with _ h
  subst hl2
  exact ⟨(get_posts_sort_spec POSTS none (some "asc")).2 (Or.inl rfl)
      (Or.inr (Or.inl rfl)) (Or.inl rfl),
    hconc, hperm, hdesc rfl⟩

/-! ## C1: id uniqueness across operation sequences -/

/-- C1 as stated is false: ids are not unique across operation sequences
from the seed state.  A single update duplicates its id in the collection
(`PUT /api/posts/1` leaves two records with id 1). -/
theorem ids_not_unique :
    ¬ ∀ ops : List Op, ((runOps ops).map Post.id).Nodup :=
  fun h => absurd (h [Op.update 1 ⟨none, none⟩]) (by decide)

/-- A create request either leaves the collection unchanged (validation
failure, or the raised IndexError on an empty collection) or appends one
post whose id is the last post's id plus one and whose title and content
are non-empty. -/
theorem applyOp_create_cases (posts : List Post) (pl : Option PostData) :
    applyOp posts (Op.create pl) = posts ∨
    ∃ last t c, posts.getLast? = some last ∧ t ≠ "" ∧ c ≠ "" ∧
      applyOp posts (Op.create pl) = posts ++ [⟨last.id + 1, t, c⟩] := by
  cases pl with
  | none => exact Or.inl rfl
  | some d =>
    obtain ⟨dt, dc⟩ := d
    by_cases h1 : (dt == none && dc == none) = true
    · left
      simp only [applyOp, add_post, h1, if_pos]
    · by_cases h2 : (missingFields ⟨dt, dc⟩).isEmpty = true
      · have hdt : ∃ t, dt = some t ∧ t ≠ "" := by
          rcases dt with _ | t
          · exfalso
            simp [missingFields, fieldMissing] at h2
          · refine ⟨t, rfl, ?_⟩
            intro he
            subst he
            simp [missingFields, fieldMissing] at h2
        have hdc : ∃ c, dc = some c ∧ c ≠ "" := by
          rcases dc with _ | c
          · exfalso
            simp [missingFields, fieldMissing] at h2
          · refine ⟨c, rfl, ?_⟩
            intro he
            subst he
            simp [missingFields, fieldMissing] at h2
        obtain ⟨t, rfl, ht⟩ := hdt
        obtain ⟨c, rfl, hc⟩ := hdc
        cases hl : posts.getLast? with
        | none =>
          left
          simp [applyOp, add_post, missingFields, fieldMissing, ht, hc, hl]
        | some last =>
          right
          exact ⟨last, t, c, rfl, ht, hc, by
            simp [applyOp, add_post, missingFields, fieldMissing, ht, hc, hl]⟩
      · left
        simp [applyOp, add_post, h1, h2]

/-- Creates preserve strict increase of the id sequence. -/
theorem chain_lt_create (posts : List Post) (pl : Option PostData)
    (h : List.Chain' (· < ·) (posts.map Post.id)) :
    List.Chain' (· < ·) ((applyOp posts (Op.create pl)).map Post.id) := by
  rcases applyOp_create_cases posts pl with heq | ⟨last, t, c, hl, _, _, heq⟩
  · rw [heq]
    exact h
  · rw [heq, List.map_append, List.chain'_append]
    refine ⟨h, List.chain'_singleton _, ?_⟩
    intro x hx y hy
    rw [List.getLast?_map, hl] at hx
    have hx' : last.id = x := by simpa using hx
    have hy' : last.id + 1 = y := by simpa using hy
    omega

/-- C1 amended: along sequences consisting only of create operations, no
two posts in the reached collection share an id (ids stay strictly
increasing, so every id assigned is fresh). -/
theorem ids_unique_create_only (ops : List Op)
    (h : ∀ op ∈ ops, ∃ pl, op = Op.create pl) :
    ((runOps ops).map Post.id).Nodup := by
  have key : ∀ (l : List Op) (posts : List Post),
      (∀ op ∈ l, ∃ pl, op = Op.create pl) →
      List.Chain' (· < ·) (posts.map Post.id) →
      List.Chain' (· < ·) ((l.foldl applyOp posts).map Post.id) := by
    intro l
    induction l with
    | nil =>
      intro posts _ hp
      exact hp
    | cons op rest ih =>
      intro posts hops hp
      obtain ⟨pl, rfl⟩ := hops op (List.mem_cons_self op rest)
      exact ih _ (fun o ho => hops o (List.mem_cons_of_mem _ ho))
        (chain_lt_create posts pl hp)
  have hseed : List.Chain' (· < ·) (POSTS.map Post.id) := by
    simp [POSTS, List.chain'_cons, List.chain'_singleton]
  have hchain := key ops POSTS h hseed
  have hpw : ((runOps ops).map Post.id).Pairwise (· < ·) :=
    List.chain'_iff_pairwise.mp hchain
  exact hpw.imp fun hlt => ne_of_lt hlt

/-- Witness for amended C1: one valid create on the seed state keeps all
ids distinct. -/
theorem ids_unique_create_only_witness :
    ((runOps [Op.create (some ⟨some "A", some "B"⟩)]).map Post.id).Nodup :=
  ids_unique_create_only _ (by
    intro op hop
    rw [List.mem_singleton] at hop
    exact ⟨some ⟨some "A", some "B"⟩, hop⟩)

/-! ## C9: non-empty title/content across operation sequences -/

/-- C9 as stated is false: `update_post` performs no validation, so a
payload with `"title": ""` writes an empty title into the collection. -/
theorem posts_not_all_nonempty :
    ¬ ∀ ops : List Op, ∀ p ∈ runOps ops, p.title ≠ "" ∧ p.content ≠ "" :=
  fun h =>
    absurd
      (h [Op.update 1 ⟨some "", none⟩]
        ⟨1, "", "This is the first post."⟩ (by decide))
      (by decide)

/-- Every element surviving a delete was in the collection before. -/
theorem delete_post_mem (posts : List Post) (pid : Int) :
    ∀ q ∈ (delete_post posts pid).2, q ∈ posts := by
  induction posts with
  | nil =>
    intro q hq
    exact hq
  | cons p rest ih =>
    intro q hq
    by_cases hp : (p.id == pid) = true
    · simp only [delete_post, hp, if_pos] at hq
      exact List.mem_cons_of_mem p hq
    · simp only [delete_post, hp, if_neg, Bool.not_eq_true] at hq
      rcases List.mem_cons.mp hq with rfl | hq
      · exact List.mem_cons_self q rest
      · exact List.mem_cons_of_mem p (ih q hq)

/-- Every element after an update was in the collection before, or is the
resolved record built from some matching post. -/
theorem update_post_mem (posts : List Post) (pid : Int) (d : PostData) :
    ∀ q ∈ (update_post posts pid d).2,
      q ∈ posts ∨ ∃ p ∈ posts, p.id = pid ∧
        q = ⟨p.id, d.title.getD p.title, d.content.getD p.content⟩ := by
  induction posts with
  | nil =>
    intro q hq
    simp [update_post] at hq
  | cons p rest ih =>
    intro q hq
    by_cases hp : (p.id == pid) = true
    · simp only [update_post, hp, if_pos] at hq
      have hpid : p.id = pid := by simpa using hp
      rcases List.mem_cons.mp hq with rfl | hq
      · exact Or.inr ⟨p, List.mem_cons_self p rest, hpid, rfl⟩
      · rcases List.mem_append.mp hq with hq | hq
        · exact Or.inl (List.mem_cons_of_mem p hq)
        · have : q = ⟨p.id, d.title.getD p.title, d.content.getD p.content⟩ := by
            simpa using hq
          exact Or.inr ⟨p, List.mem_cons_self p rest, hpid, this⟩
    · simp only [update_post, hp, if_neg, Bool.not_eq_true] at hq
      rcases List.mem_cons.mp hq with rfl | hq
      · exact Or.inl (List.mem_cons_self q rest)
      · rcases ih q hq with hmem | ⟨p', hp', hid, heq⟩
        · exact Or.inl (List.mem_cons_of_mem p hmem)
        · exact Or.inr ⟨p', List.mem_cons_of_mem p hp', hid, heq⟩

/-- One request preserves "all posts have non-empty title and content",
provided an update payload never carries an explicit empty string. -/
theorem applyOp_nonempty (posts : List Post) (op : Op)
    (hop : ∀ pid pl, op = Op.update pid pl →
      pl.title ≠ some "" ∧ pl.content ≠ some "")
    (h : ∀ p ∈ posts, p.title ≠ "" ∧ p.content ≠ "") :
    ∀ p ∈ applyOp posts op, p.title ≠ "" ∧ p.content ≠ "" := by
  cases op with
  | create pl =>
    rcases applyOp_create_cases posts pl with heq | ⟨last, t, c, _, ht, hc, heq⟩
    · rw [heq]
      exact h
    · rw [heq]
      intro p hp
      rcases List.mem_append.mp hp with hp | hp
      · exact h p hp
      · have : p = ⟨last.id + 1, t, c⟩ := by simpa using hp
        subst this
        exact ⟨ht, hc⟩
  | del pid =>
    intro p hp
    exact h p (delete_post_mem posts pid p hp)
  | update pid pl =>
    intro p hp
    obtain ⟨hT, hC⟩ := hop pid pl rfl
    rcases update_post_mem posts pid pl p hp with hmem | ⟨p', hp', _, rfl⟩
    · exact h p hmem
    · obtain ⟨ht', hc'⟩ := h p' hp'
      constructor
      · rcases hpt : pl.title with _ | t
        · simpa using ht'
        · have : t ≠ "" := fun he => hT (by rw [hpt, he])
          simpa using this
      · rcases hpc : pl.content with _ | c
        · simpa using hc'
        · have : c ≠ "" := fun he => hC (by rw [hpc, he])
          simpa using this
  | list sf sd =>
    exact h
  | search t c =>
    exact h

/-- C9 amended: along sequences whose update payloads never carry an
explicit empty-string field (create already rejects those), every post in
every reached collection has a non-empty title and a non-empty content. -/
theorem posts_nonempty_of_clean_updates (ops : List Op)
    (h : ∀ pid pl, Op.update pid pl ∈ ops →
      pl.title ≠ some "" ∧ pl.content ≠ some "") :
    ∀ p ∈ runOps ops, p.title ≠ "" ∧ p.content ≠ "" := by
  have key : ∀ (l : List Op) (posts : List Post),
      (∀ pid pl, Op.update pid pl ∈ l →
        pl.title ≠ some "" ∧ pl.content ≠ some "") →
      (∀ p ∈ posts, p.title ≠ "" ∧ p.content ≠ "") →
      ∀ p ∈ l.foldl applyOp posts, p.title ≠ "" ∧ p.content ≠ "" := by
    intro l
    induction l with
    | nil =>
      intro posts _ hp
      exact hp
    | cons op rest ih =>
      intro posts hops hp
      refine ih _ (fun pid pl hmem => hops pid pl (List.mem_cons_of_mem _ hmem)) ?_
      refine applyOp_nonempty posts op (fun pid pl he => hops pid pl ?_) hp
      rw [← he]
      exact List.mem_cons_self op rest
  exact key ops POSTS h (by decide)

/-- Witness for amended C9: after updating post 1's content to "X", the
rewritten first post still has non-empty fields. -/
theorem posts_nonempty_of_clean_updates_witness :
    (⟨1, "First post", "X"⟩ : Post).title ≠ "" ∧
    (⟨1, "First post", "X"⟩ : Post).content ≠ "" :=
  posts_nonempty_of_clean_updates [Op.update 1 ⟨none, some "X"⟩]
    (by
      intro pid pl hmem
      rw [List.mem_singleton] at hmem
      cases hmem
      exact ⟨by simp, by simp⟩)
    ⟨1, "First post", "X"⟩ (by decide)

end Masterblog
